import Mathlib

/-
Verification of the report-parsing core of the ollama-evals dashboard.

The JavaScript source exists in two revisions: `src/app.js` (embedded below in
namespace `App`) and an unnamed second revision (`src/unnamed/part_000`,
embedded in namespace `Rev2`).  The parsing pipeline
(`parseDurationToSeconds`, `extractNumberFromText`, the line loop of
`loadData`, and the metric normalisation) is verbatim identical in the two
revisions; the second revision additionally sorts the rendered grid
(`renderGrid`), which is embedded in `Rev2` as well.

Modelling conventions:
- JavaScript numbers are modelled as exact rationals (ℚ).  IEEE-754 rounding
  and overflow to Infinity are idealised away; all numbers that actually occur
  in the pipeline are short decimal literals and sums/products thereof.
- A JavaScript value that may be `NaN` is modelled by the type `JSNum`
  (`JSNum.nan` or `JSNum.fin q`); a value that may additionally be `null` is
  an `Option JSNum`; `Number(null) = 0` is modelled explicitly.
- JavaScript strings are Lean `String`s.  The regular expressions of the
  source are hand-compiled to matchers over `List Char`, following the
  backtracking semantics of the concrete patterns.  Case folding and the
  whitespace class `\s` are modelled on the ASCII range (the reports are
  ASCII).
-/

/-! ## Character-level utilities (JS built-ins) -/

/-- The characters matched by `\s` in JS regexes and trimmed by
`String.prototype.trim`, restricted to ASCII. -/
def isJsSpace (c : Char) : Bool :=
  c = ' ' || c = '\t' || c = '\n' || c = '\r' || c = '\x0b' || c = '\x0c'

/-- JS regex word characters `\w` = `[A-Za-z0-9_]`. -/
def isWordChar (c : Char) : Bool :=
  c.isAlphanum || c = '_'

/-- `pat` occurs at the very front of `cs` (literal match). -/
def leadsWith : List Char → List Char → Bool
  | [], _ => true
  | _ :: _, [] => false
  | p :: ps, c :: cs => p = c && leadsWith ps cs

/-- Case-insensitive literal match at the front of `cs`; `pat` is given in
lower case, the subject is folded with `Char.toLower` (ASCII, as in the `i`
flag of the source regexes). -/
def ciLeads : List Char → List Char → Bool
  | [], _ => true
  | _ :: _, [] => false
  | p :: ps, c :: cs => p = c.toLower && ciLeads ps cs

/-- `needle` occurs contiguously somewhere in `hay`
(JS `String.prototype.includes`). -/
def containsSeq (needle : List Char) : List Char → Bool
  | [] => needle.isEmpty
  | c :: cs => leadsWith needle (c :: cs) || containsSeq needle cs

/-- There is a position in `cs` at which the matcher `p` fires
(models an unanchored regex `test`). -/
def containsMatch (p : List Char → Bool) : List Char → Bool
  | [] => p []
  | c :: cs => p (c :: cs) || containsMatch p cs

/-- Drop leading JS whitespace. -/
def jsTrimStart (cs : List Char) : List Char := cs.dropWhile isJsSpace

/-- Drop trailing JS whitespace (`String.prototype.trimEnd`, and also the
effect of `replace(/\s+$/, '')`). -/
def jsTrimEnd (cs : List Char) : List Char :=
  (cs.reverse.dropWhile isJsSpace).reverse

/-- `String.prototype.trim` (ASCII whitespace). -/
def jsTrim (cs : List Char) : List Char := jsTrimEnd (jsTrimStart cs)

/-- `trim` on strings. -/
def jsTrimStr (s : String) : String := String.mk (jsTrim s.data)

/-- `replace(/\s+$/, '')` on strings. -/
def jsTrimEndStr (s : String) : String := String.mk (jsTrimEnd s.data)

/-- `String.prototype.toLowerCase` (ASCII). -/
def jsLower (cs : List Char) : List Char := cs.map Char.toLower

/-- Numeric value of a digit string (most significant first). -/
def digitsToNat (ds : List Char) : ℕ :=
  ds.foldl (fun a c => 10 * a + (c.toNat - '0'.toNat)) 0

/-- Value of an unsigned decimal lexeme `digits` or `digits.digits`
(`parseFloat`/`Number` on the lexemes matched below, idealised to ℚ). -/
def decToRat (cap : List Char) : ℚ :=
  let intPart := cap.takeWhile Char.isDigit
  let rest := cap.dropWhile Char.isDigit
  match rest with
  | '.' :: fracPart => (digitsToNat intPart : ℚ) + (digitsToNat fracPart : ℚ) / 10 ^ fracPart.length
  | _ => (digitsToNat intPart : ℚ)

/-- Value of a possibly negated decimal lexeme (`Number` on a token matched by
`-?\d+(?:\.\d+)?`). -/
def tokToRat (t : List Char) : ℚ :=
  match t with
  | '-' :: r => -(decToRat r)
  | _ => decToRat t

/-! ## The regex matchers used by the source

`matchNumAt suffix cs` matches `([0-9]+(?:\.[0-9]+)?)X` (where `X` is the
literal `suffix`) anchored at the head of `cs` and returns the capture group.
Backtracking note: shortening the greedy digit runs always leaves a digit in
front of the literal suffix, so only two alternatives can succeed — the full
lexeme with its fractional part, or the bare integer part. -/

def matchNumAt (suffix : List Char) (cs : List Char) : Option (List Char) :=
  let d1 := cs.takeWhile Char.isDigit
  let r1 := cs.dropWhile Char.isDigit
  if d1.isEmpty then none
  else
    let withFrac : Option (List Char) :=
      match r1 with
      | '.' :: r2 =>
        let d2 := r2.takeWhile Char.isDigit
        let r3 := r2.dropWhile Char.isDigit
        if d2.isEmpty then none
        else if leadsWith suffix r3 then some (d1 ++ '.' :: d2) else none
      | _ => none
    match withFrac with
    | some cap => some cap
    | none => if leadsWith suffix r1 then some d1 else none

/-- Leftmost match of `([0-9]+(?:\.[0-9]+)?)X` in `cs` (JS
`String.prototype.match` without the `g` flag): try each start position left
to right. -/
def findNumSuffix (suffix : List Char) : List Char → Option (List Char)
  | [] => none
  | c :: cs =>
    match matchNumAt suffix (c :: cs) with
    | some cap => some cap
    | none => findNumSuffix suffix cs

/-- Match `-?\d+(?:\.\d+)?` anchored at the head of `cs`, returning the token
(sign included). -/
def numTokenAt (cs : List Char) : Option (List Char) :=
  let sgn : List Char := match cs with | '-' :: _ => ['-'] | _ => []
  let r0 : List Char := match cs with | '-' :: t => t | _ => cs
  let d1 := r0.takeWhile Char.isDigit
  let r1 := r0.dropWhile Char.isDigit
  if d1.isEmpty then none
  else
    match r1 with
    | '.' :: r2 =>
      let d2 := r2.takeWhile Char.isDigit
      if d2.isEmpty then some (sgn ++ d1) else some (sgn ++ d1 ++ '.' :: d2)
    | _ => some (sgn ++ d1)

/-- All matches of `-?\d+(?:\.\d+)?` in order (JS global `match`): scan start
positions left to right, resuming after the end of each match.  The fuel
argument of `scanTokensF` is only a termination device; `scanTokens` supplies
enough fuel for the whole input since every step consumes at least one
character. -/
def scanTokensF : ℕ → List Char → List (List Char)
  | 0, _ => []
  | _, [] => []
  | fuel + 1, c :: cs =>
    match numTokenAt (c :: cs) with
    | none => scanTokensF fuel cs
    | some tok => tok :: scanTokensF fuel (cs.drop (tok.length - 1))

def scanTokens (cs : List Char) : List (List Char) := scanTokensF cs.length cs

/-- Leftmost match of `(-?\d+(?:\.\d+)?)` (used for the rate metrics). -/
def findFirstTok : List Char → Option (List Char)
  | [] => none
  | c :: cs =>
    match numTokenAt (c :: cs) with
    | some tok => some tok
    | none => findFirstTok cs

/-- Leftmost match of `\d+` (used for the count metrics). -/
def firstDigitRun : List Char → Option (List Char)
  | [] => none
  | c :: cs =>
    if c.isDigit then some ((c :: cs).takeWhile Char.isDigit)
    else firstDigitRun cs

/-- JS falsiness of a nullable string: `null`/`undefined` and `""` are falsy. -/
def falsyStr : Option String → Bool
  | none => true
  | some s => s = ""

/-! ## Data model

`RawModelRecord` as produced by the line loop of `loadData`, and the
normalised `ModelRecord`.  A JS number that may be `NaN` is a `JSNum`. -/

inductive JSNum where
  | nan : JSNum
  | fin : ℚ → JSNum
deriving DecidableEq, Repr

/-- The fixed metric labels (stored lower-cased by the source, hence an
enumeration). -/
inductive MetricKey where
  | totalDuration | loadDuration | promptEvalCount | promptEvalDuration
  | promptEvalRate | evalCount | evalDuration | evalRate
deriving DecidableEq, Repr

/-- The raw `metrics` mapping of a record: at most one raw string per label. -/
structure Metrics where
  totalDuration : Option String := none
  loadDuration : Option String := none
  promptEvalCount : Option String := none
  promptEvalDuration : Option String := none
  promptEvalRate : Option String := none
  evalCount : Option String := none
  evalDuration : Option String := none
  evalRate : Option String := none
deriving DecidableEq, Repr

def Metrics.get (md : Metrics) : MetricKey → Option String
  | .totalDuration => md.totalDuration
  | .loadDuration => md.loadDuration
  | .promptEvalCount => md.promptEvalCount
  | .promptEvalDuration => md.promptEvalDuration
  | .promptEvalRate => md.promptEvalRate
  | .evalCount => md.evalCount
  | .evalDuration => md.evalDuration
  | .evalRate => md.evalRate

/-- Last-write-wins update `cur.metrics[key] = val`. -/
def Metrics.set (md : Metrics) (k : MetricKey) (v : String) : Metrics :=
  match k with
  | .totalDuration => { md with totalDuration := some v }
  | .loadDuration => { md with loadDuration := some v }
  | .promptEvalCount => { md with promptEvalCount := some v }
  | .promptEvalDuration => { md with promptEvalDuration := some v }
  | .promptEvalRate => { md with promptEvalRate := some v }
  | .evalCount => { md with evalCount := some v }
  | .evalDuration => { md with evalDuration := some v }
  | .evalRate => { md with evalRate := some v }

/-- The record accumulated by the line loop (`cur` in `loadData`). -/
structure RawModel where
  name : String
  answerLine : Option String
  numericAnswer : Option ℚ
  metrics : Metrics
deriving DecidableEq, Repr

/-- The normalised record (after the `for (const m of models)` loop).
Duration fields are `Option ℚ` mapped into `Option JSNum` (they can be `null`
but never `NaN`); count and rate fields can be `null` or `NaN`. -/
structure Model where
  name : String
  answerLine : Option String
  numericAnswer : Option ℚ
  metrics : Metrics
  totalSeconds : Option JSNum
  loadSeconds : Option JSNum
  promptCount : Option JSNum
  evalCount : Option JSNum
  promptDurationSeconds : Option JSNum
  evalDurationSeconds : Option JSNum
  promptRate : Option JSNum
  evalRate : Option JSNum
  correct : Bool
deriving DecidableEq, Repr

/-- Loop state of `loadData`: the closed records, the open record and the
body-line counter `afterHeaderLineCount`. -/
structure ParseState where
  models : List RawModel
  cur : Option RawModel
  cnt : ℕ
deriving DecidableEq, Repr

/-- A segment of the report: a header name together with the raw body lines
that reach the classification code while this record is open. -/
structure Segment where
  name : String
  bodyLines : List String
deriving DecidableEq, Repr

/-- Segmenter loop state. -/
structure SegState where
  out : List Segment
  cur : Option Segment
deriving DecidableEq, Repr

/-- Classification of one raw line by the guards at the top of the line loop
(src/app.js lines 60–64): blank and fence lines are skipped, a
`namespace:tag`-shaped line opens a record, anything else is body text. -/
inductive LineKind where
  | skip : LineKind
  | header : String → LineKind
  | body : String → LineKind
deriving DecidableEq, Repr

namespace App

/-! ## src/app.js -/

/-- Lines 7–19.  `parseDurationToSeconds(raw)`: independently search for a
minutes-, a seconds- and a milliseconds-suffixed number; sum minutes×60 and
seconds; add ms÷1000 only when no seconds match was found; `seconds || null`
maps a zero sum to `null`. -/
def durTotal (r : String) : ℚ :=
  let s := jsTrim r.data
  let minMatch := findNumSuffix ['m'] s
  let secMatch := findNumSuffix ['s'] s
  let msMatch := findNumSuffix ['m', 's'] s
  (match minMatch with | some c => decToRat c * 60 | none => 0)
    + (match secMatch with | some c => decToRat c | none => 0)
    + (match secMatch, msMatch with
       | none, some c => decToRat c / 1000
       | _, _ => 0)

def parseDurationToSeconds (raw : Option String) : Option ℚ :=
  if falsyStr raw then none
  else
    let total := durTotal (raw.getD "")
    if total = 0 then none else some total

/-- Lines 30–43.  `extractNumberFromText(text)`: strip `,`/`^`/newlines, take
all `-?\d+(?:\.\d+)?` tokens, prefer the first token that is entirely an
optionally-signed integer of 3+ digits, else the last token.  (`Number` of
such a token is always finite in the idealised ℚ model, so the
`Number.isFinite` guard of line 42 never fails.) -/
def jsReplaceSeps (cs : List Char) : List Char :=
  cs.map (fun c => if c = ',' || c = '^' || c = '\n' then ' ' else c)

/-- The filter `/^-?\d{3,}$/` of line 39: an optional sign followed by three
or more digits and nothing else (a decimal point disqualifies the token). -/
def isBigIntTok (t : List Char) : Bool :=
  let t' : List Char := match t with | '-' :: r => r | _ => t
  decide (3 ≤ t'.length) && t'.all Char.isDigit

def extractNumberFromText (text : Option String) : Option ℚ :=
  if falsyStr text then none
  else
    let nums := scanTokens (jsReplaceSeps (text.getD "").data)
    match nums with
    | [] => none
    | n0 :: rest =>
      let chosen :=
        match (n0 :: rest).filter isBigIntTok with
        | [] => (n0 :: rest).getLast (List.cons_ne_nil n0 rest)
        | b :: _ => b
      some (tokToRat chosen)

/-! ### The line loop of `loadData` (lines 45–103) -/

/-- Line 51: `isModelHeader` — the trimmed line starts with
`[A-Za-z0-9._-]+:[A-Za-z0-9._-]`. -/
def isHeaderClass (c : Char) : Bool :=
  c.isAlphanum || c = '.' || c = '_' || c = '-'

def isModelHeader (s : String) : Bool :=
  let cs := jsTrim s.data
  !(cs.takeWhile isHeaderClass).isEmpty &&
    (match cs.dropWhile isHeaderClass with
     | ':' :: d :: _ => isHeaderClass d
     | _ => false)

/-- Lines 60–64: classify one raw line.  The header branch also records the
name `line.replace(/\s+$/, '')` (line 67). -/
def lineClass (raw : String) : LineKind :=
  let line := jsTrimStr raw
  if line = "" then .skip
  else if leadsWith ("```".data) line.data then .skip
  else if isModelHeader line then .header (jsTrimEndStr line)
  else .body line

/-- Line 81: `/Step\s*5:/i` at one position. -/
def stepFiveAt (cs : List Char) : Bool :=
  ciLeads ("step".data) cs &&
    leadsWith ("5:".data) ((cs.drop 4).dropWhile isJsSpace)

def testStepFive (cs : List Char) : Bool := containsMatch stepFiveAt cs

/-- Line 81: `/answer/i`. -/
def testAnswerWord (cs : List Char) : Bool :=
  containsMatch (ciLeads ("answer".data)) cs

/-- Line 81: `/The\s+trains/i` at one position. -/
def theTrainsAt (cs : List Char) : Bool :=
  ciLeads ("the".data) cs &&
    (let r := cs.drop 3
     !((r.takeWhile isJsSpace).isEmpty) &&
       ciLeads ("trains".data) (r.dropWhile isJsSpace))

def testTheTrains (cs : List Char) : Bool := containsMatch theTrainsAt cs

/-- Line 89: the anchored metric-label regex, applied to the untrimmed raw
line.  It matches iff the line starts (case-insensitively) with one of the
eight labels followed by `:` and at least one further character; the stored
value is the trailing text trimmed (`\s*(.+)$` followed by `.trim()` always
yields the trim of everything after the colon). -/
def labelText : MetricKey → List Char
  | .totalDuration => "total duration".data
  | .loadDuration => "load duration".data
  | .promptEvalCount => "prompt eval count".data
  | .promptEvalDuration => "prompt eval duration".data
  | .promptEvalRate => "prompt eval rate".data
  | .evalCount => "eval count".data
  | .evalDuration => "eval duration".data
  | .evalRate => "eval rate".data

def tryLabel (k : MetricKey) (cs : List Char) : Option (MetricKey × String) :=
  if ciLeads (labelText k) cs then
    match cs.drop (labelText k).length with
    | ':' :: r2 => if r2.isEmpty then none else some (k, String.mk (jsTrim r2))
    | _ => none
  else none

def matchMetric (cs : List Char) : Option (MetricKey × String) :=
  tryLabel .totalDuration cs <|> tryLabel .loadDuration cs
    <|> tryLabel .promptEvalCount cs <|> tryLabel .promptEvalDuration cs
    <|> tryLabel .promptEvalRate cs <|> tryLabel .evalCount cs
    <|> tryLabel .evalDuration cs <|> tryLabel .evalRate cs

/-- Line 98: `/\b(\d{3,})\b/.test(line)` — a maximal digit run of length ≥ 3
whose neighbours (if any) are non-word characters. -/
def bigRunHereOk (cs : List Char) : Bool :=
  decide (3 ≤ (cs.takeWhile Char.isDigit).length) &&
    (match cs.dropWhile Char.isDigit with
     | [] => true
     | x :: _ => !isWordChar x)

def hasBigNumAux : Bool → List Char → Bool
  | _, [] => false
  | prev, c :: cs =>
    (!prev && c.isDigit && bigRunHereOk (c :: cs)) || hasBigNumAux (isWordChar c) cs

def testBigNum (cs : List Char) : Bool := hasBigNumAux false cs

/-- Line 98: `/duration|count|rate/i.test(line)`. -/
def testDurCountRate (cs : List Char) : Bool :=
  containsMatch
    (fun t => ciLeads ("duration".data) t || ciLeads ("count".data) t
      || ciLeads ("rate".data) t) cs

/-- One iteration of the `for` loop of lines 58–102, for the raw line `raw`. -/
def stepLine (st : ParseState) (raw : String) : ParseState :=
  match lineClass raw with
  | .skip => st
  | .header name =>
    { models := st.models ++ st.cur.toList,
      cur := some { name := name, answerLine := none, numericAnswer := none, metrics := {} },
      cnt := 0 }
  | .body line =>
    match st.cur with
    | none => st
    | some cur =>
      let cnt := st.cnt + 1
      if falsyStr cur.answerLine && decide (cnt ≤ 6) &&
          (testStepFive line.data || testAnswerWord line.data || testTheTrains line.data) then
        { models := st.models,
          cur := some { cur with
            answerLine := some (jsTrimStr raw),
            numericAnswer := extractNumberFromText (some (jsTrimStr raw)) },
          cnt := cnt }
      else
        match matchMetric raw.data with
        | some (k, v) =>
          { models := st.models,
            cur := some { cur with metrics := cur.metrics.set k v },
            cnt := cnt }
        | none =>
          if falsyStr cur.answerLine && testBigNum line.data &&
              !testDurCountRate line.data then
            { models := st.models,
              cur := some { cur with
                answerLine := some (jsTrimStr raw),
                numericAnswer := extractNumberFromText (some (jsTrimStr raw)) },
              cnt := cnt }
          else
            { models := st.models, cur := st.cur, cnt := cnt }

/-- Lines 53–103: run the loop over all lines and close the final record. -/
def buildRaw (lines : List String) : List RawModel :=
  let st := lines.foldl stepLine ⟨[], none, 0⟩
  st.models ++ st.cur.toList

/-! ### Normalisation (lines 105–117) -/

/-- `Number(x)` on a nullable number: `Number(null) = 0`. -/
def jsNumOfOpt : Option ℚ → ℚ
  | none => 0
  | some q => q

/-- Lines 110–111: `md[k] ? Number(String(md[k]).match(/\d+/)?.[0]) : null` —
`Number(undefined)` is `NaN` when the value has no digit run. -/
def jsCountField : Option String → Option JSNum
  | none => none
  | some v =>
    if v = "" then none
    else some (match firstDigitRun v.data with
      | some ds => JSNum.fin (digitsToNat ds)
      | none => JSNum.nan)

/-- Lines 114–115: rate fields via `(-?\d+(?:\.\d+)?)`. -/
def jsRateField : Option String → Option JSNum
  | none => none
  | some v =>
    if v = "" then none
    else some (match findFirstTok v.data with
      | some t => JSNum.fin (tokToRat t)
      | none => JSNum.nan)

def EXPECTED_ANSWER : ℚ := 3600

/-- Lines 106–117: normalise one raw record. -/
def normalize (m : RawModel) : Model :=
  { name := m.name,
    answerLine := m.answerLine,
    numericAnswer := m.numericAnswer,
    metrics := m.metrics,
    totalSeconds := (parseDurationToSeconds m.metrics.totalDuration).map JSNum.fin,
    loadSeconds := (parseDurationToSeconds m.metrics.loadDuration).map JSNum.fin,
    promptCount := jsCountField m.metrics.promptEvalCount,
    evalCount := jsCountField m.metrics.evalCount,
    promptDurationSeconds := (parseDurationToSeconds m.metrics.promptEvalDuration).map JSNum.fin,
    evalDurationSeconds := (parseDurationToSeconds m.metrics.evalDuration).map JSNum.fin,
    promptRate := jsRateField m.metrics.promptEvalRate,
    evalRate := jsRateField m.metrics.evalRate,
    correct := decide (jsNumOfOpt m.numericAnswer = EXPECTED_ANSWER) }

/-- `loadData` on an already fetched and line-split report. -/
def loadData (lines : List String) : List Model :=
  (buildRaw lines).map normalize

/-! ### The segmentation aspect of the line loop

The same guards (`lineClass`), restricted to the skip/header handling of
lines 60–77: body lines are collected verbatim while a record is open,
non-header content before the first header is discarded. -/

def segStep (st : SegState) (raw : String) : SegState :=
  match lineClass raw with
  | .skip => st
  | .header n => { out := st.out ++ st.cur.toList, cur := some ⟨n, []⟩ }
  | .body _ =>
    match st.cur with
    | none => st
    | some c => { out := st.out, cur := some ⟨c.name, c.bodyLines ++ [raw]⟩ }

def segments (lines : List String) : List Segment :=
  let st := lines.foldl segStep ⟨[], none⟩
  st.out ++ st.cur.toList

end App

namespace Rev2

/-! ## src/unnamed/part_000

Lines 19–132 of the second revision are character-for-character identical to
lines 7–120 of `src/app.js`; the embedding therefore repeats the same
definitions.  The second revision additionally sorts the grid (lines
176–213), embedded at the end of this namespace. -/

/-- Lines 19–31. -/
def durTotal (r : String) : ℚ :=
  let s := jsTrim r.data
  let minMatch := findNumSuffix ['m'] s
  let secMatch := findNumSuffix ['s'] s
  let msMatch := findNumSuffix ['m', 's'] s
  (match minMatch with | some c => decToRat c * 60 | none => 0)
    + (match secMatch with | some c => decToRat c | none => 0)
    + (match secMatch, msMatch with
       | none, some c => decToRat c / 1000
       | _, _ => 0)

def parseDurationToSeconds (raw : Option String) : Option ℚ :=
  if falsyStr raw then none
  else
    let total := durTotal (raw.getD "")
    if total = 0 then none else some total

/-- Lines 42–55. -/
def jsReplaceSeps (cs : List Char) : List Char :=
  cs.map (fun c => if c = ',' || c = '^' || c = '\n' then ' ' else c)

def isBigIntTok (t : List Char) : Bool :=
  let t' : List Char := match t with | '-' :: r => r | _ => t
  decide (3 ≤ t'.length) && t'.all Char.isDigit

def extractNumberFromText (text : Option String) : Option ℚ :=
  if falsyStr text then none
  else
    let nums := scanTokens (jsReplaceSeps (text.getD "").data)
    match nums with
    | [] => none
    | n0 :: rest =>
      let chosen :=
        match (n0 :: rest).filter isBigIntTok with
        | [] => (n0 :: rest).getLast (List.cons_ne_nil n0 rest)
        | b :: _ => b
      some (tokToRat chosen)

/-! ### The line loop of `loadData` (lines 57–115) -/

def isHeaderClass (c : Char) : Bool :=
  c.isAlphanum || c = '.' || c = '_' || c = '-'

def isModelHeader (s : String) : Bool :=
  let cs := jsTrim s.data
  !(cs.takeWhile isHeaderClass).isEmpty &&
    (match cs.dropWhile isHeaderClass with
     | ':' :: d :: _ => isHeaderClass d
     | _ => false)

def lineClass (raw : String) : LineKind :=
  let line := jsTrimStr raw
  if line = "" then .skip
  else if leadsWith ("```".data) line.data then .skip
  else if isModelHeader line then .header (jsTrimEndStr line)
  else .body line

def stepFiveAt (cs : List Char) : Bool :=
  ciLeads ("step".data) cs &&
    leadsWith ("5:".data) ((cs.drop 4).dropWhile isJsSpace)

def testStepFive (cs : List Char) : Bool := containsMatch stepFiveAt cs

def testAnswerWord (cs : List Char) : Bool :=
  containsMatch (ciLeads ("answer".data)) cs

def theTrainsAt (cs : List Char) : Bool :=
  ciLeads ("the".data) cs &&
    (let r := cs.drop 3
     !((r.takeWhile isJsSpace).isEmpty) &&
       ciLeads ("trains".data) (r.dropWhile isJsSpace))

def testTheTrains (cs : List Char) : Bool := containsMatch theTrainsAt cs

def labelText : MetricKey → List Char
  | .totalDuration => "total duration".data
  | .loadDuration => "load duration".data
  | .promptEvalCount => "prompt eval count".data
  | .promptEvalDuration => "prompt eval duration".data
  | .promptEvalRate => "prompt eval rate".data
  | .evalCount => "eval count".data
  | .evalDuration => "eval duration".data
  | .evalRate => "eval rate".data

def tryLabel (k : MetricKey) (cs : List Char) : Option (MetricKey × String) :=
  if ciLeads (labelText k) cs then
    match cs.drop (labelText k).length with
    | ':' :: r2 => if r2.isEmpty then none else some (k, String.mk (jsTrim r2))
    | _ => none
  else none

def matchMetric (cs : List Char) : Option (MetricKey × String) :=
  tryLabel .totalDuration cs <|> tryLabel .loadDuration cs
    <|> tryLabel .promptEvalCount cs <|> tryLabel .promptEvalDuration cs
    <|> tryLabel .promptEvalRate cs <|> tryLabel .evalCount cs
    <|> tryLabel .evalDuration cs <|> tryLabel .evalRate cs

def bigRunHereOk (cs : List Char) : Bool :=
  decide (3 ≤ (cs.takeWhile Char.isDigit).length) &&
    (match cs.dropWhile Char.isDigit with
     | [] => true
     | x :: _ => !isWordChar x)

def hasBigNumAux : Bool → List Char → Bool
  | _, [] => false
  | prev, c :: cs =>
    (!prev && c.isDigit && bigRunHereOk (c :: cs)) || hasBigNumAux (isWordChar c) cs

def testBigNum (cs : List Char) : Bool := hasBigNumAux false cs

def testDurCountRate (cs : List Char) : Bool :=
  containsMatch
    (fun t => ciLeads ("duration".data) t || ciLeads ("count".data) t
      || ciLeads ("rate".data) t) cs

def stepLine (st : ParseState) (raw : String) : ParseState :=
  match lineClass raw with
  | .skip => st
  | .header name =>
    { models := st.models ++ st.cur.toList,
      cur := some { name := name, answerLine := none, numericAnswer := none, metrics := {} },
      cnt := 0 }
  | .body line =>
    match st.cur with
    | none => st
    | some cur =>
      let cnt := st.cnt + 1
      if falsyStr cur.answerLine && decide (cnt ≤ 6) &&
          (testStepFive line.data || testAnswerWord line.data || testTheTrains line.data) then
        { models := st.models,
          cur := some { cur with
            answerLine := some (jsTrimStr raw),
            numericAnswer := extractNumberFromText (some (jsTrimStr raw)) },
          cnt := cnt }
      else
        match matchMetric raw.data with
        | some (k, v) =>
          { models := st.models,
            cur := some { cur with metrics := cur.metrics.set k v },
            cnt := cnt }
        | none =>
          if falsyStr cur.answerLine && testBigNum line.data &&
              !testDurCountRate line.data then
            { models := st.models,
              cur := some { cur with
                answerLine := some (jsTrimStr raw),
                numericAnswer := extractNumberFromText (some (jsTrimStr raw)) },
              cnt := cnt }
          else
            { models := st.models, cur := st.cur, cnt := cnt }

def buildRaw (lines : List String) : List RawModel :=
  let st := lines.foldl stepLine ⟨[], none, 0⟩
  st.models ++ st.cur.toList

/-! ### Normalisation (lines 117–129) -/

def jsNumOfOpt : Option ℚ → ℚ
  | none => 0
  | some q => q

def jsCountField : Option String → Option JSNum
  | none => none
  | some v =>
    if v = "" then none
    else some (match firstDigitRun v.data with
      | some ds => JSNum.fin (digitsToNat ds)
      | none => JSNum.nan)

def jsRateField : Option String → Option JSNum
  | none => none
  | some v =>
    if v = "" then none
    else some (match findFirstTok v.data with
      | some t => JSNum.fin (tokToRat t)
      | none => JSNum.nan)

def EXPECTED_ANSWER : ℚ := 3600

def normalize (m : RawModel) : Model :=
  { name := m.name,
    answerLine := m.answerLine,
    numericAnswer := m.numericAnswer,
    metrics := m.metrics,
    totalSeconds := (parseDurationToSeconds m.metrics.totalDuration).map JSNum.fin,
    loadSeconds := (parseDurationToSeconds m.metrics.loadDuration).map JSNum.fin,
    promptCount := jsCountField m.metrics.promptEvalCount,
    evalCount := jsCountField m.metrics.evalCount,
    promptDurationSeconds := (parseDurationToSeconds m.metrics.promptEvalDuration).map JSNum.fin,
    evalDurationSeconds := (parseDurationToSeconds m.metrics.evalDuration).map JSNum.fin,
    promptRate := jsRateField m.metrics.promptEvalRate,
    evalRate := jsRateField m.metrics.evalRate,
    correct := decide (jsNumOfOpt m.numericAnswer = EXPECTED_ANSWER) }

def loadData (lines : List String) : List Model :=
  (buildRaw lines).map normalize

/-! ### The grid sort of `renderGrid` (lines 176–213, second revision only) -/

/-- The values of the `SORT.by` switch (lines 183–192); `other` stands for any
value not listed, which the `default` branch maps to `totalSeconds`. -/
inductive SortKey where
  | total | genDuration | promptRate | evalRate | evalCount | other
deriving DecidableEq, Repr

inductive SortDir where
  | asc | desc
deriving DecidableEq, Repr

def getVal (k : SortKey) (m : Model) : Option JSNum :=
  match k with
  | .total => m.totalSeconds
  | .genDuration => m.evalDurationSeconds
  | .promptRate => m.promptRate
  | .evalRate => m.evalRate
  | .evalCount => m.evalCount
  | .other => m.totalSeconds

/-- `va == null || Number.isNaN(va)` (lines 196–197). -/
def isNullish : Option JSNum → Bool
  | none => true
  | some .nan => true
  | some (.fin _) => false

def finOf : Option JSNum → ℚ
  | some (.fin q) => q
  | _ => 0

/-- The comparator of lines 193–203.  When both values are present and finite
it returns their difference (negated for descending order); otherwise nullish
values compare as larger regardless of direction. -/
def sortCmp (k : SortKey) (dir : SortDir) (a b : Model) : ℚ :=
  let va := getVal k a
  let vb := getVal k b
  if isNullish va && isNullish vb then 0
  else if isNullish va then 1
  else if isNullish vb then -1
  else
    let diff := finOf va - finOf vb
    match dir with
    | .asc => diff
    | .desc => -diff

/-- Stable insertion of `x` behind every element it does not strictly
precede. -/
def insertCmp (cmp : Model → Model → ℚ) (x : Model) : List Model → List Model
  | [] => [x]
  | y :: ys => if cmp x y < 0 then x :: y :: ys else y :: insertCmp cmp x ys

/-- `Array.prototype.sort`: for a consistent comparator the ECMAScript
specification determines the result up to the order of comparator-equal
elements, and modern engines are stable; a stable insertion sort therefore
models it extensionally. -/
def jsSortBy (cmp : Model → Model → ℚ) (l : List Model) : List Model :=
  l.foldl (fun acc x => insertCmp cmp x acc) []

/-- The name filter of lines 179–180 (`trim`, `toLowerCase`, `includes`). -/
def filterModels (models : List Model) (filter : String) : List Model :=
  let q := jsLower (jsTrim filter.data)
  if q.isEmpty then models
  else models.filter (fun m => containsSeq q (jsLower m.name.data))

/-- The record order rendered by `renderGrid`: filter, then sort (lines
179–203). -/
def renderGridModels (models : List Model) (filter : String)
    (k : SortKey) (dir : SortDir) : List Model :=
  jsSortBy (sortCmp k dir) (filterModels models filter)

end Rev2

/-! ## Derived and specification-level definitions

These definitions do not add behaviour: they name aspects of the code above
(the header filter of the line loop, the body-line filter of the segmenter,
the `.body` branch of the loop as a step function) so that the theorems can
speak about them.  `buildSegment` replays the loop's body branch over one
segment; the theorem `buildRaw_eq_segments` below proves that `segments`
and `buildSegment` together are exactly the record builder of `loadData`. -/

/-- The header name contributed by one raw line, if any. -/
def keptHeader (raw : String) : Option String :=
  match App.lineClass raw with
  | .header n => some n
  | _ => none

/-- The stripped header lines of a report, in report order. -/
def headerNames (lines : List String) : List String :=
  lines.filterMap keptHeader

/-- The names held by a parse state: closed records first, then the open
record. -/
def rawNames (st : ParseState) : List String :=
  st.models.map RawModel.name ++ (st.cur.map RawModel.name).toList

/-- The body lines the code keeps: neither blank after trimming nor starting
with a triple backtick. -/
def keepBody (ls : List String) : List String :=
  ls.filter (fun raw =>
    !(decide (jsTrimStr raw = "")) && !(leadsWith ("```".data) (jsTrimStr raw).data))

/-- `true` iff the line opens a record. -/
def headerish (l : String) : Bool :=
  match App.lineClass l with
  | .header _ => true
  | _ => false

/-- The fresh record opened by a header line (src/app.js lines 66–71). -/
def initRec (n : String) : RawModel :=
  { name := n, answerLine := none, numericAnswer := none, metrics := {} }

/-- The `.body` branch of the line loop (src/app.js lines 77–101) as a step
on the pair (open record, body-line counter). -/
def bodyStep (cr : RawModel × ℕ) (raw : String) : RawModel × ℕ :=
  let cur := cr.1
  let cnt := cr.2 + 1
  let line := jsTrimStr raw
  if falsyStr cur.answerLine && decide (cnt ≤ 6) &&
      (App.testStepFive line.data || App.testAnswerWord line.data
        || App.testTheTrains line.data) then
    ({ cur with
        answerLine := some (jsTrimStr raw),
        numericAnswer := App.extractNumberFromText (some (jsTrimStr raw)) }, cnt)
  else
    match App.matchMetric raw.data with
    | some (k, v) => ({ cur with metrics := cur.metrics.set k v }, cnt)
    | none =>
      if falsyStr cur.answerLine && App.testBigNum line.data &&
          !App.testDurCountRate line.data then
        ({ cur with
            answerLine := some (jsTrimStr raw),
            numericAnswer := App.extractNumberFromText (some (jsTrimStr raw)) }, cnt)
      else (cur, cnt)

/-- Replay the loop's body branch over one segment's body lines. -/
def buildSegment (seg : Segment) : RawModel :=
  (seg.bodyLines.foldl bodyStep (initRec seg.name, 0)).1

/-- Correspondence between the open record of the full loop and the open
segment of the segmenter. -/
def curRel : Option RawModel → ℕ → Option Segment → Prop
  | none, _, none => True
  | some c, cnt, some seg => (c, cnt) = seg.bodyLines.foldl bodyStep (initRec seg.name, 0)
  | _, _, _ => False

/-! ## Helper lemmas -/

/-- Unfolding `parseDurationToSeconds` on a non-empty string. -/
lemma parseDuration_some_eq (s : String) (h : ¬ s = "") :
    App.parseDurationToSeconds (some s) =
      if App.durTotal s = 0 then none else some (App.durTotal s) := by
  simp [App.parseDurationToSeconds, falsyStr, h]

/-- The head of a filtered list is the first element satisfying the filter. -/
lemma filter_head?_eq_find? (p : α → Bool) (l : List α) :
    (l.filter p).head? = l.find? p := by
  induction l with
  | nil => rfl
  | cons a t ih =>
    by_cases h : p a
    · simp [List.filter_cons, List.find?_cons, h]
    · simp [List.filter_cons, List.find?_cons, h, ih]

/-! ## C1 -/

/-- C1 (code bug): evaluating `parseDurationToSeconds` at the spec's two
duration vectors.  The first vector holds.  On `"79.06375ms"` the minutes
regex `/([0-9]+(?:\.[0-9]+)?)m/` also matches `79.06375` in front of the `m`
of `ms`, so the code adds a spurious minutes term `79.06375 × 60` to the
millisecond contribution and returns `4743.90406375` instead of the
`0.07906375` promised by the claim and by the code's own comment
("Supports formats like … \x22{79.06375ms}\x22"). -/
theorem parseDuration_spec_vectors_eval :
    App.parseDurationToSeconds (some "10m16.674888625s") = some (616.674888625 : ℚ) ∧
    App.parseDurationToSeconds (some "79.06375ms") = some (4743.90406375 : ℚ) ∧
    (4743.90406375 : ℚ) ≠ (0.07906375 : ℚ) := by
  refine ⟨?_, ?_, by norm_num⟩
  · have ht : App.durTotal "10m16.674888625s" = (616.674888625 : ℚ) := by
      simp only [App.durTotal,
        show findNumSuffix ['m'] (jsTrim "10m16.674888625s".data) = some ("10".data) from by decide,
        show findNumSuffix ['s'] (jsTrim "10m16.674888625s".data) = some ("16.674888625".data)
          from by decide,
        show findNumSuffix ['m', 's'] (jsTrim "10m16.674888625s".data) = none from by decide,
        decToRat,
        show ("10".data).takeWhile Char.isDigit = "10".data from by decide,
        show ("10".data).dropWhile Char.isDigit = [] from by decide,
        show ("16.674888625".data).takeWhile Char.isDigit = "16".data from by decide,
        show ("16.674888625".data).dropWhile Char.isDigit = '.' :: "674888625".data from by decide,
        show digitsToNat ("10".data) = 10 from by decide,
        show digitsToNat ("16".data) = 16 from by decide,
        show digitsToNat ("674888625".data) = 674888625 from by decide,
        show ("674888625".data).length = 9 from by decide]
      norm_num
    rw [parseDuration_some_eq _ (by decide), ht, if_neg (by norm_num)]
  · have ht : App.durTotal "79.06375ms" = (4743.90406375 : ℚ) := by
      simp only [App.durTotal,
        show findNumSuffix ['m'] (jsTrim "79.06375ms".data) = some ("79.06375".data) from by decide,
        show findNumSuffix ['s'] (jsTrim "79.06375ms".data) = none from by decide,
        show findNumSuffix ['m', 's'] (jsTrim "79.06375ms".data) = some ("79.06375".data)
          from by decide,
        decToRat,
        show ("79.06375".data).takeWhile Char.isDigit = "79".data from by decide,
        show ("79.06375".data).dropWhile Char.isDigit = '.' :: "06375".data from by decide,
        show digitsToNat ("79".data) = 79 from by decide,
        show digitsToNat ("06375".data) = 6375 from by decide,
        show ("06375".data).length = 5 from by decide]
      norm_num
    rw [parseDuration_some_eq _ (by decide), ht, if_neg (by norm_num)]

/-! ## C8 -/

/-- C8 (confirmed): `parseDurationToSeconds` returns `null` exactly when the
input is absent or empty or the computed component sum is zero; a string in
which none of the three unit regexes matches always yields `null` (the
function is total, so it never throws); in particular `""` and `"0s"` map to
`null`. -/
theorem parseDuration_null_iff :
    (∀ raw, App.parseDurationToSeconds raw = none ↔
      (raw = none ∨ raw = some "" ∨ ∃ r, raw = some r ∧ App.durTotal r = 0)) ∧
    (∀ r : String,
      findNumSuffix ['m'] (jsTrim r.data) = none →
      findNumSuffix ['s'] (jsTrim r.data) = none →
      findNumSuffix ['m', 's'] (jsTrim r.data) = none →
      App.parseDurationToSeconds (some r) = none) ∧
    App.parseDurationToSeconds (some "") = none ∧
    App.parseDurationToSeconds (some "0s") = none := by
  have hzero : ∀ r : String,
      findNumSuffix ['m'] (jsTrim r.data) = none →
      findNumSuffix ['s'] (jsTrim r.data) = none →
      findNumSuffix ['m', 's'] (jsTrim r.data) = none →
      App.durTotal r = 0 := by
    intro r h1 h2 h3
    simp only [App.durTotal, h1, h2, h3]
    norm_num
  refine ⟨?_, ?_, by decide, ?_⟩
  · intro raw
    match raw with
    | none => simp [App.parseDurationToSeconds, falsyStr]
    | some s =>
      by_cases hs : s = ""
      · subst hs
        simp [App.parseDurationToSeconds, falsyStr]
      · rw [parseDuration_some_eq s hs]
        by_cases h0 : App.durTotal s = 0
        · rw [if_pos h0]
          exact iff_of_true rfl (Or.inr (Or.inr ⟨s, rfl, h0⟩))
        · rw [if_neg h0]
          constructor
          · intro h; exact absurd h (by simp)
          · rintro (h | h | ⟨r, hr, h0'⟩)
            · exact absurd h (by simp)
            · exact absurd (Option.some.inj h) hs
            · cases Option.some.inj hr
              exact absurd h0' h0
  · intro r h1 h2 h3
    by_cases hs : r = ""
    · subst hs; decide
    · rw [parseDuration_some_eq r hs, if_pos (hzero r h1 h2 h3)]
  · have ht : App.durTotal "0s" = 0 := by
      simp only [App.durTotal,
        show findNumSuffix ['m'] (jsTrim "0s".data) = none from by decide,
        show findNumSuffix ['s'] (jsTrim "0s".data) = some ("0".data) from by decide,
        show findNumSuffix ['m', 's'] (jsTrim "0s".data) = none from by decide,
        decToRat,
        show ("0".data).takeWhile Char.isDigit = "0".data from by decide,
        show ("0".data).dropWhile Char.isDigit = [] from by decide,
        show digitsToNat ("0".data) = 0 from by decide]
      norm_num
    rw [parseDuration_some_eq _ (by decide), ht, if_pos rfl]

/-- C8 witness: a malformed string with no unit matches yields `null`. -/
theorem parseDuration_null_iff_witness :
    App.parseDurationToSeconds (some "hello") = none :=
  parseDuration_null_iff.2.1 "hello" (by decide) (by decide) (by decide)

/-! ## C2 -/

/-- C2 counterexample: the token `3600.5` has three or more integer digits, so
per the claim `extractNumberFromText "3600.5 then 7"` would have to return
`3600.5`; the filter `/^-?\d{3,}$/` of the code rejects any token with a
decimal part, so the code falls back to the last token and returns `7`. -/
theorem extractNumber_decimal_cex :
    App.extractNumberFromText (some "3600.5 then 7") = some 7 ∧ (7 : ℚ) ≠ 3600.5 :=
  ⟨by decide, by norm_num⟩

/-- C2 (amended): `extractNumberFromText` returns `null` on absent, empty or
token-free input; otherwise it returns the value of the first token that is
entirely an optionally-signed integer of three or more digits (a token with a
decimal part never qualifies), falling back to the value of the last token
when no token qualifies.  The spec's three example vectors hold. -/
theorem extractNumber_preference :
    App.extractNumberFromText none = none ∧
    App.extractNumberFromText (some "") = none ∧
    (∀ s : String, ¬ s = "" →
      (scanTokens (App.jsReplaceSeps s.data) = [] →
        App.extractNumberFromText (some s) = none) ∧
      (∀ t, (scanTokens (App.jsReplaceSeps s.data)).find? App.isBigIntTok = some t →
        App.extractNumberFromText (some s) = some (tokToRat t)) ∧
      ((scanTokens (App.jsReplaceSeps s.data)).find? App.isBigIntTok = none →
        ∀ last, (scanTokens (App.jsReplaceSeps s.data)).getLast? = some last →
        App.extractNumberFromText (some s) = some (tokToRat last))) ∧
    App.extractNumberFromText (some "Step 5: 3600 trains collide") = some 3600 ∧
    App.extractNumberFromText (some "no numbers here") = none ∧
    App.extractNumberFromText (some "12 then 3450") = some 3450 := by
  refine ⟨rfl, rfl, ?_, by decide, by decide, by decide⟩
  intro s hs
  have hunfold : App.extractNumberFromText (some s) =
      (match scanTokens (App.jsReplaceSeps s.data) with
        | [] => none
        | n0 :: rest =>
          some (tokToRat
            (match (n0 :: rest).filter App.isBigIntTok with
              | [] => (n0 :: rest).getLast (List.cons_ne_nil n0 rest)
              | b :: _ => b))) := by
    simp [App.extractNumberFromText, falsyStr, hs]
  refine ⟨?_, ?_, ?_⟩
  · intro hnil; rw [hunfold, hnil]
  · intro t hfind
    rcases hl : scanTokens (App.jsReplaceSeps s.data) with _ | ⟨n0, rest⟩
    · rw [hl] at hfind; exact absurd hfind (by simp)
    · rw [hl] at hfind
      have hhead : ((n0 :: rest).filter App.isBigIntTok).head? = some t := by
        rw [filter_head?_eq_find?]; exact hfind
      rcases hf : (n0 :: rest).filter App.isBigIntTok with _ | ⟨b, bs⟩
      · rw [hf] at hhead; exact absurd hhead (by simp)
      · rw [hf] at hhead
        have hb : b = t := by simpa using hhead
        rw [hunfold, hl]
        show some (tokToRat
          (match (n0 :: rest).filter App.isBigIntTok with
            | [] => (n0 :: rest).getLast (List.cons_ne_nil n0 rest)
            | b :: _ => b)) = some (tokToRat t)
        rw [hf, hb]
  · intro hfind last hlast
    rcases hl : scanTokens (App.jsReplaceSeps s.data) with _ | ⟨n0, rest⟩
    · rw [hl] at hlast; exact absurd hlast (by simp)
    · rw [hl] at hfind hlast
      have hf : (n0 :: rest).filter App.isBigIntTok = [] := by
        rw [← List.head?_eq_none_iff, filter_head?_eq_find?]
        exact hfind
      rw [hunfold, hl]
      show some (tokToRat
        (match (n0 :: rest).filter App.isBigIntTok with
          | [] => (n0 :: rest).getLast (List.cons_ne_nil n0 rest)
          | b :: _ => b)) = some (tokToRat last)
      rw [hf]
      have hlast' : (n0 :: rest).getLast (List.cons_ne_nil n0 rest) = last := by
        rw [List.getLast?_eq_getLast (n0 :: rest) (List.cons_ne_nil n0 rest)] at hlast
        exact Option.some.inj hlast
      rw [hlast']

/-- C2 witness: on `"12 then 3450"` the first qualifying token is `3450`, and
the theorem forces that value. -/
theorem extractNumber_preference_witness :
    App.extractNumberFromText (some "12 then 3450") = some (3450 : ℚ) :=
  (((extractNumber_preference.2.2.1 "12 then 3450" (by decide)).2.1
    ("3450".data) (by decide)).trans (by decide))

/-! ## C3 -/

lemma stepLine_names (st : ParseState) (raw : String) :
    rawNames (App.stepLine st raw) = rawNames st ++ (keptHeader raw).toList := by
  unfold App.stepLine keptHeader
  cases h : App.lineClass raw with
  | skip => simp [rawNames]
  | header n =>
    cases hc : st.cur <;>
      simp [rawNames, hc, Option.toList]
  | body line =>
    cases hc : st.cur with
    | none => simp [rawNames, hc]
    | some cur =>
      simp only [hc]
      split
      · simp [rawNames, hc]
      · split
        · simp [rawNames, hc]
        · split
          · simp [rawNames, hc]
          · simp [rawNames, hc]

lemma foldl_stepLine_names (lines : List String) :
    ∀ st : ParseState,
      rawNames (List.foldl App.stepLine st lines) = rawNames st ++ headerNames lines := by
  induction lines with
  | nil => intro st; simp [headerNames]
  | cons a t ih =>
    intro st
    rw [List.foldl_cons, ih, stepLine_names]
    simp only [headerNames, List.filterMap_cons]
    cases keptHeader a <;> simp

lemma buildRaw_names (lines : List String) :
    (App.buildRaw lines).map RawModel.name = headerNames lines := by
  unfold App.buildRaw
  have h := foldl_stepLine_names lines ⟨[], none, 0⟩
  simp only [rawNames] at h
  simp only [List.map_append]
  rw [show ∀ o : Option RawModel, o.toList.map RawModel.name = (o.map RawModel.name).toList
    from fun o => by cases o <;> simp]
  simpa using h

lemma loadData_names_eq (lines : List String) :
    (App.loadData lines).map Model.name = headerNames lines := by
  unfold App.loadData
  rw [List.map_map]
  have : Model.name ∘ App.normalize = RawModel.name := by
    funext r; rfl
  rw [this, buildRaw_names]

lemma lineClass_header_ne_empty {raw n : String} (h : App.lineClass raw = .header n) :
    n ≠ "" := by
  simp only [App.lineClass] at h
  split at h
  · exact absurd h (by simp)
  · split at h
    · exact absurd h (by simp)
    · split at h
      · next hhdr =>
          cases h
          intro hn
          have hnil : jsTrimEnd (jsTrimStr raw).data = [] := by
            have := congrArg String.data hn
            simpa [jsTrimEndStr] using this
          have hsp : ∀ c ∈ (jsTrimStr raw).data, isJsSpace c = true := by
            intro c hc
            have h1 : ((jsTrimStr raw).data.reverse.dropWhile isJsSpace) = [] := by
              have := congrArg List.reverse hnil
              simpa [jsTrimEnd] using this
            have := List.dropWhile_eq_nil_iff.mp h1
            exact this c (List.mem_reverse.mpr hc)
          have htrimnil : jsTrim (jsTrimStr raw).data = [] := by
            have h1 : (jsTrimStr raw).data.dropWhile isJsSpace = [] :=
              List.dropWhile_eq_nil_iff.mpr (fun x hx => hsp x hx)
            simp [jsTrim, jsTrimStart, h1, jsTrimEnd]
          rw [App.isModelHeader, htrimnil] at hhdr
          simp at hhdr
      · exact absurd h (by simp)

/-- C3 counterexample: a report that repeats the header `a:b` produces two
records with the same name — the parser does not deduplicate names, so they
are not pairwise distinct for every input report. -/
theorem loadData_duplicate_names_cex :
    (App.loadData ["a:b", "a:b"]).map Model.name = ["a:b", "a:b"] ∧
    ¬ ((App.loadData ["a:b", "a:b"]).map Model.name).Nodup :=
  ⟨by decide, by decide⟩

/-- C3 (amended): for every report the parsed records carry exactly the
stripped header lines as names, in report order, and every name is non-empty;
the names are pairwise distinct whenever the report's header lines are
pairwise distinct (the parser performs no deduplication). -/
theorem loadData_names (lines : List String) :
    (App.loadData lines).map Model.name = headerNames lines ∧
    (∀ m ∈ App.loadData lines, m.name ≠ "") ∧
    ((headerNames lines).Nodup → ((App.loadData lines).map Model.name).Nodup) := by
  refine ⟨loadData_names_eq lines, ?_, ?_⟩
  · intro m hm
    have hmem : m.name ∈ (App.loadData lines).map Model.name :=
      List.mem_map.mpr ⟨m, hm, rfl⟩
    rw [loadData_names_eq lines] at hmem
    rcases List.mem_filterMap.mp hmem with ⟨raw, _, hk⟩
    unfold keptHeader at hk
    cases hcl : App.lineClass raw <;> rw [hcl] at hk
    · exact absurd hk (by simp)
    · simp only [Option.some.injEq] at hk
      rw [← hk]
      exact lineClass_header_ne_empty hcl
    · exact absurd hk (by simp)
  · intro hnd
    rw [loadData_names_eq lines]
    exact hnd

/-- C3 witness: a two-header report parses to the two names in order, and
they are distinct. -/
theorem loadData_names_witness :
    (App.loadData ["a:b", "x", "c:d"]).map Model.name = ["a:b", "c:d"] ∧
    ((App.loadData ["a:b", "x", "c:d"]).map Model.name).Nodup :=
  ⟨(loadData_names ["a:b", "x", "c:d"]).1.trans (by decide),
   (loadData_names ["a:b", "x", "c:d"]).2.2 (by decide)⟩

/-! ## C4 -/

lemma lineClass_skip_iff {raw : String} :
    App.lineClass raw = .skip ↔
      (jsTrimStr raw = "" ∨ leadsWith ("```".data) (jsTrimStr raw).data = true) := by
  constructor
  · intro h
    simp only [App.lineClass] at h
    split at h
    · next hc => exact Or.inl hc
    · split at h
      · next hc => exact Or.inr hc
      · split at h
        · exact absurd h (by simp)
        · exact absurd h (by simp)
  · intro h
    by_cases he : jsTrimStr raw = ""
    · simp [App.lineClass, he]
    · rcases h with h | h
      · exact absurd h he
      · simp [App.lineClass, he, h]

lemma lineClass_body_not_skip {raw line : String} (h : App.lineClass raw = .body line) :
    jsTrimStr raw ≠ "" ∧ leadsWith ("```".data) (jsTrimStr raw).data = false := by
  by_cases h1 : jsTrimStr raw = ""
  · have hs : App.lineClass raw = .skip := lineClass_skip_iff.mpr (Or.inl h1)
    rw [h] at hs
    exact absurd hs (by simp)
  · by_cases h2 : leadsWith ("```".data) (jsTrimStr raw).data = true
    · have hs : App.lineClass raw = .skip := lineClass_skip_iff.mpr (Or.inr h2)
      rw [h] at hs
      exact absurd hs (by simp)
    · exact ⟨h1, by simpa using h2⟩

lemma not_header_of_headerish {l : String} (h : headerish l = false) :
    ∀ k, App.lineClass l ≠ .header k := by
  intro k hk
  simp [headerish, hk] at h

lemma segStep_skip (st : SegState) (raw : String)
    (h : jsTrimStr raw = "" ∨ leadsWith ("```".data) (jsTrimStr raw).data = true) :
    App.segStep st raw = st := by
  have hc : App.lineClass raw = .skip := lineClass_skip_iff.mpr h
  simp [App.segStep, hc]

lemma segs_none (ls : List String) :
    ∀ out, (∀ l ∈ ls, ∀ k, App.lineClass l ≠ .header k) →
      List.foldl App.segStep ⟨out, none⟩ ls = ⟨out, none⟩ := by
  induction ls with
  | nil => intro out _; rfl
  | cons a t ih =>
    intro out h
    rw [List.foldl_cons]
    have hstep : App.segStep ⟨out, none⟩ a = ⟨out, none⟩ := by
      cases hc : App.lineClass a with
      | skip => simp [App.segStep, hc]
      | header k => exact absurd hc (h a (by simp) k)
      | body line => simp [App.segStep, hc]
    rw [hstep]
    exact ih out (fun l hl k => h l (by simp [hl]) k)

lemma keepBody_cons_skip {a : String} (t : List String)
    (h : App.lineClass a = .skip) : keepBody (a :: t) = keepBody t := by
  rcases lineClass_skip_iff.mp h with h1 | h1 <;>
    simp [keepBody, List.filter_cons, h1]

lemma keepBody_cons_body {a line : String} (t : List String)
    (h : App.lineClass a = .body line) : keepBody (a :: t) = a :: keepBody t := by
  have hpred := lineClass_body_not_skip h
  simp [keepBody, List.filter_cons, hpred.2, decide_eq_false hpred.1]

lemma segStep_skip_state (st : SegState) {raw : String}
    (h : App.lineClass raw = .skip) : App.segStep st raw = st := by
  simp [App.segStep, h]

lemma segStep_body_state (out : List Segment) (n : String) (acc : List String)
    {raw line : String} (h : App.lineClass raw = .body line) :
    App.segStep ⟨out, some ⟨n, acc⟩⟩ raw = ⟨out, some ⟨n, acc ++ [raw]⟩⟩ := by
  simp [App.segStep, h]

lemma segs_open (ls : List String) :
    ∀ out n acc, (∀ l ∈ ls, ∀ k, App.lineClass l ≠ .header k) →
      List.foldl App.segStep ⟨out, some ⟨n, acc⟩⟩ ls =
        ⟨out, some ⟨n, acc ++ keepBody ls⟩⟩ := by
  induction ls with
  | nil => intro out n acc _; simp [keepBody]
  | cons a t ih =>
    intro out n acc h
    rw [List.foldl_cons]
    cases hc : App.lineClass a with
    | skip =>
      rw [segStep_skip_state _ hc, keepBody_cons_skip t hc]
      exact ih out n acc (fun l hl k => h l (by simp [hl]) k)
    | header k => exact absurd hc (h a (by simp) k)
    | body line =>
      rw [segStep_body_state out n acc hc, keepBody_cons_body t hc,
        ih out n (acc ++ [a]) (fun l hl k => h l (by simp [hl]) k)]
      simp

/-- C4 counterexample: the line `"```js"` is neither blank nor exactly the
fence marker `"```"`, so per the claim it would have to appear among the body
lines of the first segment; the code skips every line that merely starts with
a triple backtick, so the first segment's body is `["x"]` only. -/
theorem segments_fence_cex :
    App.segments ["a:b", "```js", "x", "c:d", "y"] =
      [⟨"a:b", ["x"]⟩, ⟨"c:d", ["y"]⟩] ∧
    jsTrimStr "```js" ≠ "" ∧ jsTrimStr "```js" ≠ "```" :=
  ⟨by decide, by decide, by decide⟩

/-- C4 (amended): a skipped line is exactly one that is blank after trimming
or starts with a triple backtick, and such lines never change the segmenter
state; a report of the shape `pre ++ [hdrA] ++ mid ++ [hdrB] ++ post` with no
further header lines yields exactly two segments whose body lines are the
non-blank, non-backtick-starting lines of `mid` and `post` respectively, and
the non-header content of `pre` is discarded. -/
theorem segments_two_headers :
    (∀ (st : SegState) (raw : String),
      (jsTrimStr raw = "" ∨ leadsWith ("```".data) (jsTrimStr raw).data = true) →
      App.segStep st raw = st) ∧
    (∀ (pre mid post : List String) (ha hb na nb : String),
      App.lineClass ha = .header na → App.lineClass hb = .header nb →
      (∀ l ∈ pre ++ mid ++ post, ∀ k, App.lineClass l ≠ .header k) →
      App.segments (pre ++ ha :: mid ++ hb :: post) =
        [⟨na, keepBody mid⟩, ⟨nb, keepBody post⟩]) := by
  refine ⟨segStep_skip, ?_⟩
  intro pre mid post ha hb na nb hha hhb hno
  have hpre : ∀ l ∈ pre, ∀ k, App.lineClass l ≠ .header k :=
    fun l hl k => hno l (by simp [List.mem_append, hl]) k
  have hmid : ∀ l ∈ mid, ∀ k, App.lineClass l ≠ .header k :=
    fun l hl k => hno l (by simp [List.mem_append, hl]) k
  have hpost : ∀ l ∈ post, ∀ k, App.lineClass l ≠ .header k :=
    fun l hl k => hno l (by simp [List.mem_append, hl]) k
  have hstep1 : App.segStep ⟨[], none⟩ ha = ⟨[], some ⟨na, []⟩⟩ := by
    simp [App.segStep, hha]
  have hstep2 : App.segStep ⟨[], some ⟨na, keepBody mid⟩⟩ hb =
      ⟨[⟨na, keepBody mid⟩], some ⟨nb, []⟩⟩ := by
    simp [App.segStep, hhb]
  have e0 : List.foldl App.segStep ⟨[], none⟩ (pre ++ ha :: mid) =
      ⟨[], some ⟨na, keepBody mid⟩⟩ := by
    rw [List.foldl_append, segs_none pre [] hpre, List.foldl_cons, hstep1,
      segs_open mid [] na [] hmid, List.nil_append]
  have e1 : List.foldl App.segStep ⟨[], none⟩ (pre ++ ha :: mid ++ hb :: post) =
      ⟨[⟨na, keepBody mid⟩], some ⟨nb, keepBody post⟩⟩ := by
    rw [List.foldl_append, e0, List.foldl_cons, hstep2,
      segs_open post [⟨na, keepBody mid⟩] nb [] hpost, List.nil_append]
  show (List.foldl App.segStep ⟨[], none⟩ (pre ++ ha :: mid ++ hb :: post)).out ++
      (List.foldl App.segStep ⟨[], none⟩ (pre ++ ha :: mid ++ hb :: post)).cur.toList =
    [⟨na, keepBody mid⟩, ⟨nb, keepBody post⟩]
  rw [e1]
  rfl

/-- C4 witness: a concrete two-header report with leading junk, a pure fence
line and a blank line. -/
theorem segments_two_headers_witness :
    App.segments ["junk", "modelA:v1", "body1", "```", "", "modelB:v1", "body2"] =
      [⟨"modelA:v1", ["body1"]⟩, ⟨"modelB:v1", ["body2"]⟩] := by
  have hall : ∀ l ∈ (["junk"] ++ ["body1", "```", ""] ++ ["body2"] : List String),
      headerish l = false := by decide
  exact (segments_two_headers.2 ["junk"] ["body1", "```", ""] ["body2"]
    "modelA:v1" "modelB:v1" "modelA:v1" "modelB:v1" (by decide) (by decide)
    (fun l hl k => not_header_of_headerish (hall l hl) k)).trans (by decide)

/-! ## The segmenter and per-segment builder are the line loop

`segments` and `buildSegment` were read off the fused loop of `loadData`;
this theorem proves that the decomposition is faithful: running the loop is
the same as segmenting and then replaying the body branch per segment. -/

lemma lineClass_body_trim {raw line : String} (h : App.lineClass raw = .body line) :
    line = jsTrimStr raw := by
  simp only [App.lineClass] at h
  split at h
  · exact absurd h (by simp)
  · split at h
    · exact absurd h (by simp)
    · split at h
      · exact absurd h (by simp)
      · cases h; rfl

lemma stepLine_skip (st : ParseState) {raw : String}
    (h : App.lineClass raw = .skip) : App.stepLine st raw = st := by
  simp [App.stepLine, h]

lemma stepLine_header (st : ParseState) {raw n : String}
    (h : App.lineClass raw = .header n) :
    App.stepLine st raw = ⟨st.models ++ st.cur.toList, some (initRec n), 0⟩ := by
  simp [App.stepLine, h, initRec]

lemma stepLine_body_none (st : ParseState) {raw line : String}
    (hcur : st.cur = none) (h : App.lineClass raw = .body line) :
    App.stepLine st raw = st := by
  simp [App.stepLine, h, hcur]

lemma stepLine_body_open (st : ParseState) (cur : RawModel) {raw line : String}
    (hcur : st.cur = some cur) (hcl : App.lineClass raw = .body line) :
    App.stepLine st raw =
      ⟨st.models, some (bodyStep (cur, st.cnt) raw).1, (bodyStep (cur, st.cnt) raw).2⟩ := by
  have hline := lineClass_body_trim hcl
  subst hline
  by_cases h1 : (falsyStr cur.answerLine && decide (st.cnt + 1 ≤ 6) &&
      (App.testStepFive (jsTrimStr raw).data || App.testAnswerWord (jsTrimStr raw).data
        || App.testTheTrains (jsTrimStr raw).data)) = true
  · simp only [App.stepLine, hcl, hcur, bodyStep, if_pos h1]
  · cases hm : App.matchMetric raw.data with
    | some kv =>
      obtain ⟨k, v⟩ := kv
      simp only [App.stepLine, hcl, hcur, bodyStep, hm, if_neg h1]
    | none =>
      by_cases h2 : (falsyStr cur.answerLine && App.testBigNum (jsTrimStr raw).data &&
          !App.testDurCountRate (jsTrimStr raw).data) = true
      · simp only [App.stepLine, hcl, hcur, bodyStep, hm, if_neg h1, if_pos h2]
      · simp only [App.stepLine, hcl, hcur, bodyStep, hm, if_neg h1, if_neg h2]

lemma segStep_header (st : SegState) {raw n : String}
    (h : App.lineClass raw = .header n) :
    App.segStep st raw = ⟨st.out ++ st.cur.toList, some ⟨n, []⟩⟩ := by
  simp [App.segStep, h]

lemma segStep_body_none (st : SegState) {raw line : String}
    (hcur : st.cur = none) (h : App.lineClass raw = .body line) :
    App.segStep st raw = st := by
  simp [App.segStep, h, hcur]

lemma segStep_body_open (st : SegState) (seg : Segment) {raw line : String}
    (hcur : st.cur = some seg) (h : App.lineClass raw = .body line) :
    App.segStep st raw = ⟨st.out, some ⟨seg.name, seg.bodyLines ++ [raw]⟩⟩ := by
  simp [App.segStep, h, hcur]

/-- Closing the open record corresponds to closing the open segment. -/
lemma close_corr (ps : ParseState) (ss : SegState)
    (hm : ps.models = ss.out.map buildSegment)
    (hc : curRel ps.cur ps.cnt ss.cur) :
    ps.models ++ ps.cur.toList = (ss.out ++ ss.cur.toList).map buildSegment := by
  cases hps : ps.cur with
  | none =>
    cases hss : ss.cur with
    | none => simp [hps, hss, hm]
    | some seg => rw [hps, hss] at hc; exact absurd hc (by simp [curRel])
  | some c =>
    cases hss : ss.cur with
    | none => rw [hps, hss] at hc; exact absurd hc (by simp [curRel])
    | some seg =>
      rw [hps, hss] at hc
      simp only [curRel] at hc
      have hcval : c = buildSegment seg := by
        rw [buildSegment, ← hc]
      simp [hps, hss, hm, hcval]

lemma loop_corr (lines : List String) :
    ∀ (ps : ParseState) (ss : SegState),
      ps.models = ss.out.map buildSegment →
      curRel ps.cur ps.cnt ss.cur →
      (List.foldl App.stepLine ps lines).models
          ++ (List.foldl App.stepLine ps lines).cur.toList
        = ((List.foldl App.segStep ss lines).out
            ++ (List.foldl App.segStep ss lines).cur.toList).map buildSegment := by
  induction lines with
  | nil =>
    intro ps ss hm hc
    simpa using close_corr ps ss hm hc
  | cons a t ih =>
    intro ps ss hm hc
    rw [List.foldl_cons, List.foldl_cons]
    cases hcl : App.lineClass a with
    | skip =>
      rw [stepLine_skip ps hcl, segStep_skip_state ss hcl]
      exact ih ps ss hm hc
    | header n =>
      rw [stepLine_header ps hcl, segStep_header ss hcl]
      apply ih
      · exact close_corr ps ss hm hc
      · simp [curRel, buildSegment]
    | body line =>
      cases hps : ps.cur with
      | none =>
        cases hss : ss.cur with
        | none =>
          rw [stepLine_body_none ps hps hcl, segStep_body_none ss hss hcl]
          exact ih ps ss hm hc
        | some seg => rw [hps, hss] at hc; exact absurd hc (by simp [curRel])
      | some c =>
        cases hss : ss.cur with
        | none => rw [hps, hss] at hc; exact absurd hc (by simp [curRel])
        | some seg =>
          rw [hps, hss] at hc
          simp only [curRel] at hc
          rw [stepLine_body_open ps c hps hcl, segStep_body_open ss seg hss hcl]
          apply ih
          · exact hm
          · simp only [curRel]
            rw [List.foldl_append, List.foldl_cons, List.foldl_nil, ← hc]

theorem buildRaw_eq_segments (lines : List String) :
    App.buildRaw lines = (App.segments lines).map buildSegment := by
  have h := loop_corr lines ⟨[], none, 0⟩ ⟨[], none⟩ (by simp) (by simp [curRel])
  simpa [App.buildRaw, App.segments] using h

/-! ## C5 -/

/-- C5 counterexample: the matched answer line is stored trimmed, not as the
full original line — on the body line `"  The answer is 42"` the record holds
`"The answer is 42"`, which differs from the original raw line. -/
theorem earlyAnswer_trim_cex :
    (App.loadData ["m:1", "  The answer is 42"]).map Model.answerLine =
      [some "The answer is 42"] ∧
    ("The answer is 42" : String) ≠ "  The answer is 42" :=
  ⟨by decide, by decide⟩

/-- C5 (amended): on a body line reached while no answer line has been
captured and the body-line counter (after its increment) is at most 6, a line
matching (case-insensitively) the `Step 5:` marker, the word `answer`, or the
`The trains` phrase is captured: the trimmed line is stored as `answerLine`,
`numericAnswer` is set by running the numeric extractor on that trimmed line,
the metrics mapping is left untouched (the line is excluded from metric and
fallback classification), and the counter advances. -/
theorem stepLine_early_answer :
    ∀ (st : ParseState) (cur : RawModel) (raw line : String),
      st.cur = some cur → cur.answerLine = none → st.cnt + 1 ≤ 6 →
      App.lineClass raw = .body line →
      (App.testStepFive line.data || App.testAnswerWord line.data
        || App.testTheTrains line.data) = true →
      App.stepLine st raw =
        { models := st.models,
          cur := some { cur with
            answerLine := some (jsTrimStr raw),
            numericAnswer := App.extractNumberFromText (some (jsTrimStr raw)) },
          cnt := st.cnt + 1 } := by
  intro st cur raw line hcur hans hcnt hcl htest
  have hcond : (falsyStr cur.answerLine && decide (st.cnt + 1 ≤ 6) &&
      (App.testStepFive line.data || App.testAnswerWord line.data
        || App.testTheTrains line.data)) = true := by
    simp [falsyStr, hans, hcnt, htest]
  simp only [App.stepLine, hcl, hcur, hcond, if_true]

/-- C5 witness: a concrete early-answer step. -/
theorem stepLine_early_answer_witness :
    App.stepLine ⟨[], some ⟨"m:1", none, none, {}⟩, 0⟩ "  The answer is 42" =
      ⟨[], some ⟨"m:1", some "The answer is 42", some 42, {}⟩, 1⟩ :=
  (stepLine_early_answer ⟨[], some ⟨"m:1", none, none, {}⟩, 0⟩
    ⟨"m:1", none, none, {}⟩ "  The answer is 42" "The answer is 42"
    rfl rfl (by decide) (by decide) (by decide)).trans (by decide)

/-! ## C6 -/

/-- C6 counterexample: a record whose `prompt eval count` string contains no
digits gets `promptCount = NaN` (`Number(undefined)`), a non-finite
placeholder rather than an absent value, contradicting the claim. -/
theorem count_nan_cex :
    (App.loadData ["m:1", "prompt eval count: abc"]).map Model.promptCount =
      [some JSNum.nan] ∧
    some JSNum.nan ≠ (none : Option JSNum) :=
  ⟨by decide, by decide⟩

/-- C6 (amended): `promptCount`/`evalCount` are the integer given by the first
run of digits of the metric string; they are absent exactly when the label is
missing or its stored value is the empty string; when the label is present
with a non-empty value containing no digits the field is `NaN` (a non-finite
placeholder, not absent).  The normaliser is a total function, so no input
raises an error. -/
theorem normalize_counts :
    ∀ r : RawModel,
      ((App.normalize r).promptCount = none ↔
        (r.metrics.promptEvalCount = none ∨ r.metrics.promptEvalCount = some "")) ∧
      (∀ v, r.metrics.promptEvalCount = some v → ¬ v = "" →
        firstDigitRun v.data = none → (App.normalize r).promptCount = some JSNum.nan) ∧
      (∀ v ds, r.metrics.promptEvalCount = some v →
        firstDigitRun v.data = some ds →
        (App.normalize r).promptCount = some (JSNum.fin (digitsToNat ds))) ∧
      ((App.normalize r).evalCount = none ↔
        (r.metrics.evalCount = none ∨ r.metrics.evalCount = some "")) ∧
      (∀ v, r.metrics.evalCount = some v → ¬ v = "" →
        firstDigitRun v.data = none → (App.normalize r).evalCount = some JSNum.nan) ∧
      (∀ v ds, r.metrics.evalCount = some v →
        firstDigitRun v.data = some ds →
        (App.normalize r).evalCount = some (JSNum.fin (digitsToNat ds))) := by
  have hfd : ∀ v : String, firstDigitRun v.data ≠ none → ¬ v = "" := by
    intro v hv hv0
    apply hv
    have : v.data = [] := by
      have := congrArg String.data hv0
      simpa using this
    rw [this]
    rfl
  have hchar : ∀ o : Option String,
      ((App.jsCountField o = none ↔ (o = none ∨ o = some "")) ∧
        (∀ v, o = some v → ¬ v = "" → firstDigitRun v.data = none →
          App.jsCountField o = some JSNum.nan) ∧
        (∀ v ds, o = some v → firstDigitRun v.data = some ds →
          App.jsCountField o = some (JSNum.fin (digitsToNat ds)))) := by
    intro o
    match o with
    | none => simp [App.jsCountField]
    | some v =>
      by_cases hv : v = ""
      · subst hv
        refine ⟨by simp [App.jsCountField], ?_, ?_⟩
        · intro v hv; simp at hv; subst hv; intro h; exact absurd rfl h
        · intro v ds hv hds
          simp at hv; subst hv
          exact absurd hds (by simp [firstDigitRun, show ("" : String).data = [] from rfl])
      · refine ⟨?_, ?_, ?_⟩
        · simp only [App.jsCountField, if_neg hv]
          constructor
          · intro h; exact absurd h (by simp)
          · rintro (h | h)
            · exact absurd h (by simp)
            · exact absurd (Option.some.inj h) hv
        · intro w hw _ hno
          cases Option.some.inj hw
          simp [App.jsCountField, if_neg hv, hno]
        · intro w ds hw hds
          cases Option.some.inj hw
          simp [App.jsCountField, if_neg hv, hds]
  intro r
  have hp := hchar r.metrics.promptEvalCount
  have he := hchar r.metrics.evalCount
  have hpc : (App.normalize r).promptCount = App.jsCountField r.metrics.promptEvalCount := rfl
  have hec : (App.normalize r).evalCount = App.jsCountField r.metrics.evalCount := rfl
  rw [hpc, hec]
  exact ⟨hp.1, hp.2.1, hp.2.2, he.1, he.2.1, he.2.2⟩

/-- C6 witness: the digit run `512` of `"512 tokens"` becomes the count. -/
theorem normalize_counts_witness :
    (App.normalize ⟨"m:1", none, none,
      { promptEvalCount := some "512 tokens" }⟩).promptCount =
      some (JSNum.fin 512) :=
  ((normalize_counts ⟨"m:1", none, none, { promptEvalCount := some "512 tokens" }⟩).2.2.1
    "512 tokens" ("512".data) rfl (by decide)).trans (by decide)

/-! ## C7 -/

/-- C7 (confirmed): `correct` is a total boolean field; it is `true` exactly
when the extracted `numericAnswer` equals the constant `EXPECTED_ANSWER =
3600` under exact numeric equality (`Number(null) = 0 ≠ 3600`), and a record
with no extracted answer is marked incorrect. -/
theorem loadData_correct_iff :
    ∀ (lines : List String) (m : Model), m ∈ App.loadData lines →
      ((m.correct = true ↔ m.numericAnswer = some 3600) ∧
        (m.numericAnswer = none → m.correct = false)) := by
  intro lines m hm
  rcases List.mem_map.mp hm with ⟨r, _, rfl⟩
  have hc : (App.normalize r).correct =
      decide (App.jsNumOfOpt r.numericAnswer = App.EXPECTED_ANSWER) := rfl
  have hn : (App.normalize r).numericAnswer = r.numericAnswer := rfl
  rw [hc, hn]
  match hna : r.numericAnswer with
  | none =>
    constructor
    · rw [decide_eq_true_iff]
      constructor
      · intro h
        exact absurd h (by simp [App.jsNumOfOpt, App.EXPECTED_ANSWER])
      · intro h; exact absurd h (by simp)
    · intro _
      rw [decide_eq_false_iff_not]
      simp [App.jsNumOfOpt, App.EXPECTED_ANSWER]
  | some q =>
    constructor
    · rw [decide_eq_true_iff]
      simp [App.jsNumOfOpt, App.EXPECTED_ANSWER]
    · intro h; exact absurd h (by simp)

/-- C7 witness: a record with no extracted answer is incorrect, one answering
3600 is correct. -/
theorem loadData_correct_iff_witness :
    ((App.loadData ["m:1"]).get ⟨0, by decide⟩).correct = false ∧
    ((App.loadData ["m:1", "Step 5: 3600"]).get ⟨0, by decide⟩).correct = true :=
  ⟨(loadData_correct_iff ["m:1"] _ (List.get_mem _ _ _)).2 (by decide),
   (loadData_correct_iff ["m:1", "Step 5: 3600"] _ (List.get_mem _ _ _)).1.mpr (by decide)⟩

/-! ## C9 -/

lemma sortCmp_bad_bad {k : Rev2.SortKey} {dir : Rev2.SortDir} {a b : Model}
    (ha : Rev2.isNullish (Rev2.getVal k a) = true)
    (hb : Rev2.isNullish (Rev2.getVal k b) = true) :
    ¬ Rev2.sortCmp k dir a b < 0 := by
  simp [Rev2.sortCmp, ha, hb]

lemma sortCmp_bad_good {k : Rev2.SortKey} {dir : Rev2.SortDir} {a b : Model}
    (ha : Rev2.isNullish (Rev2.getVal k a) = true)
    (hb : Rev2.isNullish (Rev2.getVal k b) = false) :
    ¬ Rev2.sortCmp k dir a b < 0 := by
  simp [Rev2.sortCmp, ha, hb]

lemma sortCmp_good_bad {k : Rev2.SortKey} {dir : Rev2.SortDir} {a b : Model}
    (ha : Rev2.isNullish (Rev2.getVal k a) = false)
    (hb : Rev2.isNullish (Rev2.getVal k b) = true) :
    Rev2.sortCmp k dir a b < 0 := by
  simp [Rev2.sortCmp, ha, hb]

lemma insertCmp_allbad (k : Rev2.SortKey) (dir : Rev2.SortDir) (x : Model)
    (hx : Rev2.isNullish (Rev2.getVal k x) = true) :
    ∀ l : List Model, (∀ y ∈ l, Rev2.isNullish (Rev2.getVal k y) = true) →
      Rev2.insertCmp (Rev2.sortCmp k dir) x l = l ++ [x] := by
  intro l
  induction l with
  | nil => intro _; rfl
  | cons y t ih =>
    intro hl
    have hy := hl y (by simp)
    rw [Rev2.insertCmp, if_neg (sortCmp_bad_bad hx hy), ih (fun z hz => hl z (by simp [hz]))]
    rfl

lemma insertCmp_split (k : Rev2.SortKey) (dir : Rev2.SortDir) (x : Model) :
    ∀ g b : List Model,
      (∀ y ∈ g, Rev2.isNullish (Rev2.getVal k y) = false) →
      (∀ y ∈ b, Rev2.isNullish (Rev2.getVal k y) = true) →
      ∃ g' b', Rev2.insertCmp (Rev2.sortCmp k dir) x (g ++ b) = g' ++ b' ∧
        (∀ y ∈ g', Rev2.isNullish (Rev2.getVal k y) = false) ∧
        (∀ y ∈ b', Rev2.isNullish (Rev2.getVal k y) = true) := by
  intro g
  induction g with
  | nil =>
    intro b hg hb
    cases hx : Rev2.isNullish (Rev2.getVal k x) with
    | true =>
      refine ⟨[], b ++ [x], ?_, by simp, ?_⟩
      · simpa using insertCmp_allbad k dir x hx b hb
      · intro y hy
        rcases List.mem_append.mp hy with h | h
        · exact hb y h
        · simp at h; rw [h]; exact hx
    | false =>
      match b with
      | [] => exact ⟨[x], [], rfl, by simpa using hx, by simp⟩
      | y :: t =>
        have hy := hb y (by simp)
        refine ⟨[x], y :: t, ?_, by simpa using hx, hb⟩
        rw [List.nil_append, Rev2.insertCmp, if_pos (sortCmp_good_bad hx hy)]
        rfl
  | cons a g' ih =>
    intro b hg hb
    have hga : Rev2.isNullish (Rev2.getVal k a) = false := hg a (by simp)
    by_cases hlt : Rev2.sortCmp k dir x a < 0
    · have hx : Rev2.isNullish (Rev2.getVal k x) = false := by
        cases hx : Rev2.isNullish (Rev2.getVal k x) with
        | true => exact absurd hlt (sortCmp_bad_good hx hga)
        | false => rfl
      refine ⟨x :: a :: g', b, ?_, ?_, hb⟩
      · rw [List.cons_append, Rev2.insertCmp, if_pos hlt]
        rfl
      · intro y hy
        rcases List.mem_cons.mp hy with h | h
        · rw [h]; exact hx
        · exact List.mem_cons.mp h |>.elim (fun h' => h' ▸ hga)
            (fun h' => hg y (by simp [h']))
    · rcases ih b (fun z hz => hg z (by simp [hz])) hb with ⟨g'', b'', heq, h1, h2⟩
      refine ⟨a :: g'', b'', ?_, ?_, h2⟩
      · rw [List.cons_append, Rev2.insertCmp, if_neg hlt, heq]
        rfl
      · intro y hy
        rcases List.mem_cons.mp hy with h | h
        · rw [h]; exact hga
        · exact h1 y h

lemma jsSortBy_split (k : Rev2.SortKey) (dir : Rev2.SortDir) (ms : List Model) :
    ∀ acc : List Model,
      (∃ g b, acc = g ++ b ∧
        (∀ y ∈ g, Rev2.isNullish (Rev2.getVal k y) = false) ∧
        (∀ y ∈ b, Rev2.isNullish (Rev2.getVal k y) = true)) →
      ∃ g b, List.foldl (fun acc x => Rev2.insertCmp (Rev2.sortCmp k dir) x acc) acc ms
          = g ++ b ∧
        (∀ y ∈ g, Rev2.isNullish (Rev2.getVal k y) = false) ∧
        (∀ y ∈ b, Rev2.isNullish (Rev2.getVal k y) = true) := by
  induction ms with
  | nil => intro acc h; simpa using h
  | cons x t ih =>
    intro acc ⟨g, b, heq, hg, hb⟩
    rw [List.foldl_cons]
    apply ih
    rw [heq]
    exact insertCmp_split k dir x g b hg hb

/-- C9 (confirmed): in the order rendered by `renderGrid` of the second
revision, every record whose sort value is `null` or `NaN` comes after every
record with a present finite sort value, for every record collection, name
filter, sort key and direction. -/
theorem renderGrid_nulls_last :
    ∀ (models : List Model) (filter : String) (k : Rev2.SortKey) (dir : Rev2.SortDir),
      List.Pairwise
        (fun a b => Rev2.isNullish (Rev2.getVal k a) = true →
          Rev2.isNullish (Rev2.getVal k b) = true)
        (Rev2.renderGridModels models filter k dir) := by
  intro models filter k dir
  have hsplit := jsSortBy_split k dir (Rev2.filterModels models filter) []
    ⟨[], [], rfl, by simp, by simp⟩
  rcases hsplit with ⟨g, b, heq, hg, hb⟩
  rw [Rev2.renderGridModels, Rev2.jsSortBy, heq]
  refine List.pairwise_append.mpr ⟨?_, ?_, ?_⟩
  · exact List.pairwise_of_forall_mem_list
      (fun a ha b' _ hbad => absurd hbad (by simp [hg a ha]))
  · exact List.pairwise_of_forall_mem_list (fun a _ b' hb' _ => hb b' hb')
  · exact fun a _ b' hb' _ => hb b' hb'

/-! ## C10 -/

lemma hasBigNumAux_eq_rev2 : ∀ (p : Bool) (cs : List Char),
    Rev2.hasBigNumAux p cs = App.hasBigNumAux p cs := by
  intro p cs
  induction cs generalizing p with
  | nil => rfl
  | cons c t ih =>
    rw [Rev2.hasBigNumAux, App.hasBigNumAux, ih,
      show Rev2.bigRunHereOk = App.bigRunHereOk from rfl]

lemma testBigNum_eq_rev2 : Rev2.testBigNum = App.testBigNum :=
  funext fun cs => hasBigNumAux_eq_rev2 false cs

lemma stepLine_eq_rev2 : App.stepLine = Rev2.stepLine := by
  funext st raw
  simp only [App.stepLine, Rev2.stepLine,
    show Rev2.lineClass = App.lineClass from rfl,
    show Rev2.testStepFive = App.testStepFive from rfl,
    show Rev2.testAnswerWord = App.testAnswerWord from rfl,
    show Rev2.testTheTrains = App.testTheTrains from rfl,
    testBigNum_eq_rev2,
    show Rev2.testDurCountRate = App.testDurCountRate from rfl,
    show Rev2.matchMetric = App.matchMetric from rfl,
    show Rev2.extractNumberFromText = App.extractNumberFromText from rfl]

/-- C10 (confirmed): the two file revisions' parsing pipelines are
extensionally equal — the duration parser, the numeric extractor, each step
of the line loop, the raw record builder, the metric normaliser and the full
`loadData` pipeline agree on every input.  (The source of the second revision
repeats the first revision's code verbatim, so the embedded definitions
coincide definitionally.) -/
theorem revisions_equiv :
    (∀ raw, App.parseDurationToSeconds raw = Rev2.parseDurationToSeconds raw) ∧
    (∀ text, App.extractNumberFromText text = Rev2.extractNumberFromText text) ∧
    (∀ st raw, App.stepLine st raw = Rev2.stepLine st raw) ∧
    (∀ lines, App.buildRaw lines = Rev2.buildRaw lines) ∧
    (∀ r, App.normalize r = Rev2.normalize r) ∧
    (∀ lines, App.loadData lines = Rev2.loadData lines) := by
  have hstep : ∀ st raw, App.stepLine st raw = Rev2.stepLine st raw :=
    fun st raw => congrFun (congrFun stepLine_eq_rev2 st) raw
  have hbuild : ∀ lines, App.buildRaw lines = Rev2.buildRaw lines := by
    intro lines
    unfold App.buildRaw Rev2.buildRaw
    rw [stepLine_eq_rev2]
  have hnorm : ∀ r, App.normalize r = Rev2.normalize r := fun r => rfl
  refine ⟨fun _ => rfl, fun _ => rfl, hstep, hbuild, hnorm, ?_⟩
  intro lines
  unfold App.loadData Rev2.loadData
  rw [hbuild]
  exact List.map_congr_left (fun r _ => hnorm r)
